import Mathlib

/-!
Verification development for the obsidian-cursor-manager plugin.

The development embeds the plugin's state and event handlers as pure Lean
functions.  The canonical handler bodies are translated from
src/unnamed/part_000 (the JavaScript variant, identical to src/src/main.js on
the functions treated here except where noted); the diverging handler bodies of
src/main.ts are embedded separately under a MainTs suffix so the two variants
can be compared.  The bounded recency cache is the external quick-lru
dependency, whose implementation is not part of this repository; it is
modelled from the specification's contract (spec section 4.1).
-/

set_option maxRecDepth 10000

/-- A caret location, as the source's EditorPosition: line and column (ch). -/
structure EditorPosition where
  line : Nat
  ch : Nat
  deriving DecidableEq

/-- One persisted record: a document key (file path) with its cursor position,
as the source's CursorInfo. -/
structure CursorInfo where
  file : String
  cursor : EditorPosition
  deriving DecidableEq

/-- The recency-cache contents, ordered least- to most-recently-used
(oldest first), as produced by entriesAscending. -/
abbrev LRUCache := List (String × EditorPosition)

namespace LRU

/-- Modelled from the spec: the cache capacity is the fixed design constant 50
(the maxSize argument of the quick-lru declaration in the source). -/
def capacity : Nat := 50

/-- Modelled from the spec: has(key) is true iff key currently has an entry;
it does not affect recency.  The quick-lru implementation itself is an
external dependency and is not under src/. -/
def has (c : LRUCache) (k : String) : Bool :=
  c.any (fun e => e.1 == k)

/-- The value currently stored for a key, if any.  This is the pure
observation used to state properties; it performs no recency promotion. -/
def lookup (c : LRUCache) (k : String) : Option EditorPosition :=
  (c.find? (fun e => e.1 == k)).map (fun e => e.2)

/-- Modelled from the spec: get(key) returns the stored position and promotes
the key to most-recently-used position; an absent key returns none and leaves
the cache unchanged. -/
def get (c : LRUCache) (k : String) : Option EditorPosition × LRUCache :=
  match c.find? (fun e => e.1 == k) with
  | none => (none, c)
  | some e => (some e.2, c.filter (fun x => x.1 != k) ++ [e])

/-- Modelled from the spec: set(key, position) inserts or overwrites the entry
for the key and promotes it to most-recently-used; if the insertion makes the
size exceed the capacity, the least-recently-used (oldest) entry is
evicted. -/
def set (c : LRUCache) (k : String) (p : EditorPosition) : LRUCache :=
  let c2 := c.filter (fun x => x.1 != k) ++ [(k, p)]
  if capacity < c2.length then c2.tail else c2

/-- Modelled from the spec: delete(key) removes the entry if present and is a
no-op otherwise. -/
def delete (c : LRUCache) (k : String) : LRUCache :=
  c.filter (fun x => x.1 != k)

/-- Modelled from the spec: entriesOldestFirst / quick-lru entriesAscending,
the full contents ordered least- to most-recently-used. -/
def entriesAscending (c : LRUCache) : List (String × EditorPosition) := c

/-- A sequence of set operations, applied left to right. -/
def setAll (c : LRUCache) (ps : List (String × EditorPosition)) : LRUCache :=
  ps.foldl (fun acc q => LRU.set acc q.1 q.2) c

end LRU

example : LRU.set [] "a.md" ⟨5, 10⟩ = [("a.md", ⟨5, 10⟩)] := by decide

example :
    LRU.get [("a.md", ⟨1, 1⟩), ("b.md", ⟨2, 2⟩)] "a.md" =
      (some ⟨1, 1⟩, [("b.md", ⟨2, 2⟩), ("a.md", ⟨1, 1⟩)]) := by decide

/-- The debouncer field (debounceSaveFn) of the plugin.  noFn is the null
field; fnIdle is a created debouncer that has never been invoked (reachable
only through src/main.ts's saveSettings, which creates the debouncer without
calling it); fnArmed n is an invoked debouncer whose callback fires after n
more time units (the source uses a 10000 ms window with resetTimer, so each
invocation re-arms the timer to the full window). -/
inductive DebSt where
  | noFn
  | fnIdle
  | fnArmed (remaining : Nat)
  deriving DecidableEq

/-- The quiescence window of the debounced save, in time units
(10000 ms in the source; the spec counts it as 10 units). -/
def quiescence : Nat := 10

/-- The plugin's mutable fields: the persisted snapshot
(settings.fileCursors), the recency cache, the debouncer, the layout-ready
flag, and the active-file session state (path and
initialCursorHasBeenSet). -/
structure PluginState where
  settings : List CursorInfo
  lru : LRUCache
  debounceSaveFn : DebSt
  layoutReady : Bool
  activePath : String
  initialCursorHasBeenSet : Bool
  deriving DecidableEq

/-- The active markdown view as seen by the handlers: the file path and the
editor's current caret (editor.getCursor()).  none models the absence of an
active markdown view. -/
structure View where
  path : String
  cursor : EditorPosition
  deriving DecidableEq

/-- The externally observable effects of one handler invocation: whether
saveSettings was called, and a programmatic editor.setCursor target if one was
issued. -/
structure Eff where
  reqSave : Bool
  setCursorTo : Option EditorPosition
  deriving DecidableEq

/-- No effect: saveSettings not called, no programmatic cursor move. -/
def noEff : Eff := { reqSave := false, setCursorTo := none }

/-- saveSettings as in src/unnamed/part_000 (and src/src/main.js): if a
debouncer exists it is invoked, otherwise one is created and then invoked;
either way the timer is (re)armed to the full quiescence window. -/
def saveSettings (s : PluginState) : PluginState :=
  match s.debounceSaveFn with
  | DebSt.noFn => { s with debounceSaveFn := DebSt.fnArmed quiescence }
  | DebSt.fnIdle => { s with debounceSaveFn := DebSt.fnArmed quiescence }
  | DebSt.fnArmed _ => { s with debounceSaveFn := DebSt.fnArmed quiescence }

/-- saveSettings as in src/main.ts: if a debouncer exists it is invoked
(arming the timer), but when none exists it is only created, not invoked:
nothing is scheduled by the first call of a burst. -/
def saveSettingsMainTs (s : PluginState) : PluginState :=
  match s.debounceSaveFn with
  | DebSt.noFn => { s with debounceSaveFn := DebSt.fnIdle }
  | DebSt.fnIdle => { s with debounceSaveFn := DebSt.fnArmed quiescence }
  | DebSt.fnArmed _ => { s with debounceSaveFn := DebSt.fnArmed quiescence }

/-- The serialization loop of save(): the cache contents oldest first, each
entry as a CursorInfo. -/
def serialize (c : LRUCache) : List CursorInfo :=
  (LRU.entriesAscending c).map (fun e => { file := e.1, cursor := e.2 })

/-- The element-wise comparison loop of save(): true iff some position finds a
differing file, cursor.ch or cursor.line (the source breaks at the first
difference); lists of different lengths are handled before the loop, so the
mismatched case here is arbitrary (chosen true). -/
def cursorsDiffer : List CursorInfo → List CursorInfo → Bool
  | [], [] => false
  | a :: as, b :: bs =>
    (a.file != b.file || a.cursor.ch != b.cursor.ch || a.cursor.line != b.cursor.line)
      || cursorsDiffer as bs
  | _, _ => true

/-- save() of the source (identical in all variants): serialize the cache
oldest first, compare with the persisted snapshot (length check, then the
element-wise loop), and write (saveData) only on a difference.  Returns the
new state and whether a durable write was performed. -/
def save (s : PluginState) : PluginState × Bool :=
  let fileCursors := serialize s.lru
  let updateSettings :=
    if s.settings.length = fileCursors.length then cursorsDiffer s.settings fileCursors
    else true
  if updateSettings then ({ s with settings := fileCursors }, true) else (s, false)

/-- onOpen as in src/unnamed/part_000: when the opened file has a cached
position, read it (promoting the key).  With the caret at the origin, issue a
programmatic move to the stored position; with a non-origin caret, write the
current caret into the cache (overwriting the stored value) and request a
save, without moving the editor. -/
def onOpen (s : PluginState) (view : Option View) : PluginState × Eff :=
  match view with
  | none => (s, noEff)
  | some v =>
    if v.path != "" && LRU.has s.lru v.path then
      let r := LRU.get s.lru v.path
      let desired := r.1.getD { line := 0, ch := 0 }
      let cur := v.cursor
      if cur.ch == 0 && cur.line == 0 then
        ({ s with lru := r.2 }, { reqSave := false, setCursorTo := some desired })
      else
        (saveSettings { s with lru := LRU.set r.2 v.path cur },
          { reqSave := true, setCursorTo := none })
    else (s, noEff)

/-- onOpen as in src/main.ts: identical to the part_000 variant except that
the non-origin branch only logs; it neither writes the cache nor requests a
save (the get's recency promotion still happened). -/
def onOpenMainTs (s : PluginState) (view : Option View) : PluginState × Eff :=
  match view with
  | none => (s, noEff)
  | some v =>
    if v.path != "" && LRU.has s.lru v.path then
      let r := LRU.get s.lru v.path
      let desired := r.1.getD { line := 0, ch := 0 }
      let cur := v.cursor
      if cur.ch == 0 && cur.line == 0 then
        ({ s with lru := r.2 }, { reqSave := false, setCursorTo := some desired })
      else
        ({ s with lru := r.2 }, noEff)
    else (s, noEff)

/-- The registered file-open handler (identical in src/main.ts and
src/unnamed/part_000): record the new active path, clear
initialCursorHasBeenSet, run onOpen, then set initialCursorHasBeenSet. -/
def fileOpenEvent (s : PluginState) (fp : Option String) (view : Option View) :
    PluginState × Eff :=
  let s1 := { s with activePath := fp.getD "", initialCursorHasBeenSet := false }
  let r := onOpen s1 view
  ({ r.1 with initialCursorHasBeenSet := true }, r.2)

/-- updateCursorPosition as in src/unnamed/part_000: drop the notification
before layout is ready, without an active view, for a non-active path, or
while the initial cursor has not been set; otherwise read the cached position
(promoting the key) and, when it is absent or differs from the current caret
in ch or line, store the caret and request a save. -/
def updateCursorPosition (s : PluginState) (view : Option View) : PluginState × Eff :=
  if !s.layoutReady then (s, noEff)
  else
    match view with
    | none => (s, noEff)
    | some v =>
      if v.path != s.activePath then (s, noEff)
      else if !s.initialCursorHasBeenSet then (s, noEff)
      else
        let r := if LRU.has s.lru v.path then LRU.get s.lru v.path else (none, s.lru)
        let cur := v.cursor
        match r.1 with
        | none =>
          (saveSettings { s with lru := LRU.set r.2 v.path cur },
            { reqSave := true, setCursorTo := none })
        | some oldPos =>
          if cur.ch != oldPos.ch || cur.line != oldPos.line then
            (saveSettings { s with lru := LRU.set r.2 v.path cur },
              { reqSave := true, setCursorTo := none })
          else ({ s with lru := r.2 }, noEff)

/-- updateCursorPosition as in src/main.ts: the guards differ in that a
notification arriving while initialCursorHasBeenSet is false only logs and
falls through, and the final comparison is inverted: the caret is stored (and
a save requested) exactly when a cached position exists and equals the caret
in both ch and line; an absent or differing cached position leads to no
update. -/
def updateCursorPositionMainTs (s : PluginState) (view : Option View) :
    PluginState × Eff :=
  if !s.layoutReady then (s, noEff)
  else
    match view with
    | none => (s, noEff)
    | some v =>
      if v.path != s.activePath then (s, noEff)
      else
        let r := if LRU.has s.lru v.path then LRU.get s.lru v.path else (none, s.lru)
        let cur := v.cursor
        match r.1 with
        | none => ({ s with lru := r.2 }, noEff)
        | some oldPos =>
          if cur.ch == oldPos.ch && cur.line == oldPos.line then
            (saveSettingsMainTs { s with lru := LRU.set r.2 v.path cur },
              { reqSave := true, setCursorTo := none })
          else ({ s with lru := r.2 }, noEff)

/-- renameFile (identical in src/main.ts and src/unnamed/part_000): when the
old path is cached, read its value (promoting), delete the old path, store
the value under the new path if it was defined, and request a save; otherwise
do nothing. -/
def renameFile (s : PluginState) (newPath oldPath : String) : PluginState × Eff :=
  if LRU.has s.lru oldPath then
    let r := LRU.get s.lru oldPath
    let lru2 := LRU.delete r.2 oldPath
    let lru3 :=
      match r.1 with
      | some p => LRU.set lru2 newPath p
      | none => lru2
    (saveSettings { s with lru := lru3 }, { reqSave := true, setCursorTo := none })
  else (s, noEff)

/-- deleteFile (identical in the variants): delete the path from the cache
and request a save unconditionally. -/
def deleteFile (s : PluginState) (path : String) : PluginState × Eff :=
  (saveSettings { s with lru := LRU.delete s.lru path },
    { reqSave := true, setCursorTo := none })

/-- Auxiliary: filtering with a weaker predicate does not change the first
match of a stronger one. -/
theorem find?_filter_of_imp {α : Type} (l : List α) (p q : α → Bool)
    (hpq : ∀ x, p x = true → q x = true) : (l.filter q).find? p = l.find? p := by
  induction l with
  | nil => rfl
  | cons a l ih =>
    by_cases hq : q a = true
    · rw [List.filter_cons_of_pos hq]
      by_cases hp : p a = true
      · rw [List.find?_cons_of_pos _ hp, List.find?_cons_of_pos _ hp]
      · rw [List.find?_cons_of_neg _ hp, List.find?_cons_of_neg _ hp, ih]
    · have hp : ¬ p a = true := fun hpa => hq (hpq a hpa)
      rw [List.filter_cons_of_neg (by simpa using hq), List.find?_cons_of_neg _ hp, ih]

namespace LRU

theorem has_eq_false_iff (c : LRUCache) (k : String) :
    has c k = false ↔ ∀ e ∈ c, e.1 ≠ k := by
  simp [has, List.any_eq_false]

theorem has_of_lookup {c : LRUCache} {k : String} {p : EditorPosition}
    (h : lookup c k = some p) : has c k = true := by
  unfold lookup at h
  cases hf : c.find? (fun e => e.1 == k) with
  | none => rw [hf] at h; simp at h
  | some e =>
    have hm := List.mem_of_find?_eq_some hf
    have hp := List.find?_some hf
    simp only [has, List.any_eq_true]
    exact ⟨e, hm, hp⟩

theorem lookup_eq_none_of_has {c : LRUCache} {k : String}
    (h : has c k = false) : lookup c k = none := by
  unfold lookup
  rw [List.find?_eq_none.2]
  · rfl
  · intro e he hek
    have := (has_eq_false_iff c k).1 h e he
    exact this (by simpa using hek)

theorem find?_eq_of_lookup {c : LRUCache} {k : String} {p : EditorPosition}
    (h : lookup c k = some p) : c.find? (fun e => e.1 == k) = some (k, p) := by
  unfold lookup at h
  cases hf : c.find? (fun e => e.1 == k) with
  | none => rw [hf] at h; simp at h
  | some e =>
    rw [hf] at h
    have hk : e.1 = k := by simpa using List.find?_some hf
    cases e with
    | mk e1 e2 =>
      simp at h
      simp only at hk
      rw [hk, h]

theorem get_eq_of_lookup {c : LRUCache} {k : String} {p : EditorPosition}
    (h : lookup c k = some p) : get c k = (some p, delete c k ++ [(k, p)]) := by
  unfold get delete
  rw [find?_eq_of_lookup h]

theorem get_eq_of_has_false {c : LRUCache} {k : String}
    (h : has c k = false) : get c k = (none, c) := by
  unfold get
  have hn : c.find? (fun e => e.1 == k) = none := by
    have := lookup_eq_none_of_has h
    unfold lookup at this
    cases hf : c.find? (fun e => e.1 == k) with
    | none => rfl
    | some e => rw [hf] at this; simp at this
  rw [hn]

theorem mem_delete_ne {c : LRUCache} {k : String} :
    ∀ e ∈ delete c k, e.1 ≠ k := by
  intro e he
  have := List.mem_filter.1 he
  simpa using this.2

theorem mem_delete_subset {c : LRUCache} {k : String} :
    ∀ e ∈ delete c k, e ∈ c := by
  intro e he
  exact (List.mem_filter.1 he).1

theorem lookup_append_last {x : LRUCache} {k : String} {p : EditorPosition}
    (hx : ∀ e ∈ x, e.1 ≠ k) : lookup (x ++ [(k, p)]) k = some p := by
  unfold lookup
  rw [List.find?_append]
  have h1 : x.find? (fun e => e.1 == k) = none := by
    rw [List.find?_eq_none]
    intro e he
    simpa using hx e he
  rw [h1]
  simp

theorem lookup_delete_ne {c : LRUCache} {k k' : String} (h : k' ≠ k) :
    lookup (delete c k) k' = lookup c k' := by
  unfold lookup delete
  rw [find?_filter_of_imp]
  intro x hx
  have : x.1 = k' := by simpa using hx
  simp [this, h]

theorem lookup_promote {c : LRUCache} {k : String} {p : EditorPosition}
    (h : lookup c k = some p) (k' : String) :
    lookup (delete c k ++ [(k, p)]) k' = lookup c k' := by
  by_cases hk : k' = k
  · subst hk
    rw [lookup_append_last mem_delete_ne, h]
  · unfold lookup
    rw [List.find?_append]
    have heq : (delete c k).find? (fun e => e.1 == k') = c.find? (fun e => e.1 == k') := by
      unfold delete
      rw [find?_filter_of_imp]
      intro x hx
      have : x.1 = k' := by simpa using hx
      simp [this, hk]
    rw [heq]
    cases hc : c.find? (fun e => e.1 == k') with
    | some e => simp
    | none =>
      have hkk : ¬ (k = k') := fun hh => hk hh.symm
      simp [hkk]

end LRU

namespace LRU

theorem mem_set {c : LRUCache} {k : String} {p : EditorPosition} :
    ∀ e ∈ set c k p, e ∈ c ∨ e = (k, p) := by
  intro e he
  unfold set at he
  by_cases hlen : capacity < (c.filter (fun x => x.1 != k) ++ [(k, p)]).length
  · rw [if_pos hlen] at he
    have he2 := List.mem_of_mem_tail he
    rcases List.mem_append.1 he2 with h | h
    · exact Or.inl (List.mem_filter.1 h).1
    · exact Or.inr (by simpa using h)
  · rw [if_neg hlen] at he
    rcases List.mem_append.1 he with h | h
    · exact Or.inl (List.mem_filter.1 h).1
    · exact Or.inr (by simpa using h)

theorem has_set_eq_false {c : LRUCache} {k k' : String} {p : EditorPosition}
    (h1 : has c k' = false) (h2 : k ≠ k') : has (set c k p) k' = false := by
  rw [has_eq_false_iff] at h1 ⊢
  intro e he
  rcases mem_set e he with h | h
  · exact h1 e h
  · rw [h]; exact h2

theorem lookup_set_self (c : LRUCache) (k : String) (p : EditorPosition) :
    lookup (set c k p) k = some p := by
  unfold set
  have hmem : ∀ e ∈ c.filter (fun x => x.1 != k), e.1 ≠ k := by
    intro e he
    simpa using (List.mem_filter.1 he).2
  by_cases hlen : capacity < (c.filter (fun x => x.1 != k) ++ [(k, p)]).length
  · rw [if_pos hlen]
    cases hd : c.filter (fun x => x.1 != k) with
    | nil => rw [hd] at hlen; simp [capacity] at hlen
    | cons e d' =>
      simp only [List.cons_append, List.tail_cons]
      refine lookup_append_last ?_
      intro x hx
      exact hmem x (by rw [hd]; exact List.mem_cons_of_mem e hx)
  · rw [if_neg hlen]
    exact lookup_append_last hmem

theorem length_set_le {c : LRUCache} {k : String} {p : EditorPosition}
    (hc : c.length ≤ capacity) : (set c k p).length ≤ capacity := by
  unfold set
  by_cases hlen : capacity < (c.filter (fun x => x.1 != k) ++ [(k, p)]).length
  · rw [if_pos hlen]
    have := List.length_filter_le (fun x => x.1 != k) c
    simp only [List.length_tail, List.length_append, List.length_cons, List.length_nil]
    omega
  · rw [if_neg hlen]
    omega

theorem setAll_length_le {c : LRUCache} {ps : List (String × EditorPosition)}
    (hc : c.length ≤ capacity) : (setAll c ps).length ≤ capacity := by
  induction ps generalizing c with
  | nil => exact hc
  | cons q ps ih =>
    simp only [setAll, List.foldl_cons] at ih ⊢
    exact ih (length_set_le hc)

end LRU

/-- The last n entries of a list (all of it when it is shorter than n). -/
def takeLast {α : Type} (n : Nat) (l : List α) : List α :=
  l.drop (l.length - n)

theorem takeLast_eq_self {α : Type} {n : Nat} {l : List α} (h : l.length ≤ n) :
    takeLast n l = l := by
  unfold takeLast
  rw [Nat.sub_eq_zero_of_le h, List.drop_zero]

theorem length_takeLast_le {α : Type} (n : Nat) (l : List α) :
    (takeLast n l).length ≤ n := by
  unfold takeLast
  rw [List.length_drop]
  omega

theorem takeLast_sublist {α : Type} (n : Nat) (l : List α) :
    (takeLast n l).Sublist l :=
  List.drop_sublist _ _

theorem takeLast_append_takeLast {α : Type} (n : Nat) (l r : List α) :
    takeLast n (takeLast n l ++ r) = takeLast n (l ++ r) := by
  by_cases h : l.length ≤ n
  · rw [takeLast_eq_self h]
  · have hlt : n < l.length := Nat.lt_of_not_le h
    unfold takeLast
    have hdl : (List.drop (l.length - n) l).length = n := by
      rw [List.length_drop]; omega
    have e1 : (List.drop (l.length - n) l ++ r).length - n = r.length := by
      rw [List.length_append, hdl]; omega
    have e2 : (l ++ r).length - n = (l.length - n) + r.length := by
      rw [List.length_append]; omega
    rw [e1, e2, ← List.drop_drop,
      List.drop_append_of_le_length (show l.length - n ≤ l.length by omega)]

namespace LRU

theorem has_eq_false_of_not_mem {c : LRUCache} {k : String}
    (h : k ∉ c.map Prod.fst) : has c k = false := by
  rw [has_eq_false_iff]
  intro e he hek
  exact h (hek ▸ List.mem_map_of_mem Prod.fst he)

theorem set_fresh {c : LRUCache} {k : String} {p : EditorPosition}
    (hfresh : has c k = false) (hc : c.length ≤ capacity) :
    set c k p = takeLast capacity (c ++ [(k, p)]) := by
  unfold set
  have hfilter : c.filter (fun x => x.1 != k) = c := by
    rw [List.filter_eq_self]
    intro e he
    simpa using (has_eq_false_iff c k).1 hfresh e he
  rw [hfilter]
  by_cases hlen : capacity < (c ++ [(k, p)]).length
  · rw [if_pos hlen]
    have hlen' : (c ++ [(k, p)]).length = capacity + 1 := by
      simp only [List.length_append, List.length_cons, List.length_nil] at hlen ⊢
      omega
    unfold takeLast
    rw [hlen', Nat.add_sub_cancel_left, List.drop_one]
  · rw [if_neg hlen]
    rw [takeLast_eq_self (Nat.le_of_not_lt hlen)]

theorem setAll_cons (c : LRUCache) (q : String × EditorPosition)
    (ps : List (String × EditorPosition)) :
    setAll c (q :: ps) = setAll (set c q.1 q.2) ps := rfl

theorem setAll_fresh {ps : List (String × EditorPosition)} {c : LRUCache}
    (h : ((c ++ ps).map Prod.fst).Nodup) (hc : c.length ≤ capacity) :
    setAll c ps = takeLast capacity (c ++ ps) := by
  induction ps generalizing c with
  | nil => simp [setAll, takeLast_eq_self hc]
  | cons q ps ih =>
    obtain ⟨k, p⟩ := q
    have h' := h
    rw [List.map_append, List.map_cons, List.nodup_append] at h'
    obtain ⟨h1, h2, hdisj⟩ := h'
    have hfresh : has c k = false := by
      apply has_eq_false_of_not_mem
      intro hmem
      exact hdisj hmem (List.mem_cons_self k (ps.map Prod.fst))
    rw [setAll_cons, set_fresh hfresh hc]
    have hassoc : (c ++ [(k, p)]) ++ ps = c ++ (k, p) :: ps := by
      rw [List.append_assoc]
      rfl
    rw [ih ?_ (length_takeLast_le _ _)]
    · rw [takeLast_append_takeLast, hassoc]
    · have hsub : (takeLast capacity (c ++ [(k, p)]) ++ ps).Sublist
        ((c ++ [(k, p)]) ++ ps) := (takeLast_sublist _ _).append_right ps
      have hnd : (((c ++ [(k, p)]) ++ ps).map Prod.fst).Nodup := by
        rw [hassoc]
        exact h
      exact hnd.sublist (hsub.map Prod.fst)

theorem lookup_mem_of_nodup {c : LRUCache} {q : String × EditorPosition}
    (h : (c.map Prod.fst).Nodup) (hq : q ∈ c) : lookup c q.1 = some q.2 := by
  induction c with
  | nil => simp at hq
  | cons e c ih =>
    rw [List.map_cons, List.nodup_cons] at h
    rcases List.mem_cons.1 hq with rfl | hq'
    · unfold lookup
      rw [List.find?_cons_of_pos _ (by simp)]
      rfl
    · have hne : e.1 ≠ q.1 := by
        intro hh
        exact h.1 (hh ▸ List.mem_map_of_mem Prod.fst hq')
      unfold lookup
      rw [List.find?_cons_of_neg _ (by simp [hne])]
      show lookup c q.1 = some q.2
      exact ih h.2 hq'

end LRU

namespace LRU

theorem lookup_cons_ne {e : String × EditorPosition} {c : LRUCache} {k : String}
    (h : e.1 ≠ k) : lookup (e :: c) k = lookup c k := by
  unfold lookup
  rw [List.find?_cons_of_neg _ (by simp [h])]

theorem lookup_append_left {x y : LRUCache} {k : String} {p : EditorPosition}
    (h : lookup x k = some p) : lookup (x ++ y) k = some p := by
  have hf := find?_eq_of_lookup h
  unfold lookup
  rw [List.find?_append, hf]
  rfl

end LRU

/-- C1: for every sequence of set operations starting from the empty cache,
the size never exceeds the capacity of 50; and after inserting 51 distinct
keys (with no intervening gets), the first-inserted key is absent while each
of the other 50 keys remains present with its inserted position. -/
theorem c1_capacity_invariant :
    (∀ ps : List (String × EditorPosition), (LRU.setAll [] ps).length ≤ LRU.capacity) ∧
    (∀ (q : String × EditorPosition) (rest : List (String × EditorPosition)),
      ((q :: rest).map Prod.fst).Nodup → rest.length = LRU.capacity →
      LRU.has (LRU.setAll [] (q :: rest)) q.1 = false ∧
      ∀ r ∈ rest, LRU.lookup (LRU.setAll [] (q :: rest)) r.1 = some r.2) := by
  constructor
  · intro ps
    exact LRU.setAll_length_le (by simp)
  · intro q rest hnd hlen
    have hset : LRU.setAll [] (q :: rest) = rest := by
      rw [LRU.setAll_fresh (by simpa using hnd) (by simp)]
      unfold takeLast
      rw [List.nil_append, List.length_cons, hlen, Nat.add_sub_cancel_left,
        List.drop_one, List.tail_cons]
    rw [hset]
    rw [List.map_cons, List.nodup_cons] at hnd
    constructor
    · exact LRU.has_eq_false_of_not_mem hnd.1
    · intro r hr
      exact LRU.lookup_mem_of_nodup hnd.2 hr

/-- Witness entries for the capacity claims: keys are the decimal numerals
1 to 50, paired with distinct positions. -/
def wrest : List (String × EditorPosition) :=
  (List.range 50).map (fun i => (toString (i + 1), ⟨i + 1, 0⟩))

theorem c1_capacity_invariant_witness :
    (((("0", (⟨0, 0⟩ : EditorPosition)) :: wrest).map Prod.fst).Nodup ∧
      wrest.length = LRU.capacity) ∧
    (LRU.has (LRU.setAll [] (("0", ⟨0, 0⟩) :: wrest)) "0" = false ∧
      ∀ r ∈ wrest, LRU.lookup (LRU.setAll [] (("0", ⟨0, 0⟩) :: wrest)) r.1 = some r.2) :=
  ⟨⟨by decide, by decide⟩,
    c1_capacity_invariant.2 ("0", ⟨0, 0⟩) wrest (by decide) (by decide)⟩


/-- C7: with distinct keys a, b, c inserted in that order followed by 47
further distinct insertions (filling capacity), get(a) returns a's position
and promotes a, so that inserting a 51st distinct key evicts b, the
least-recently-used entry, while a remains present. -/
theorem c7_recency_promotion (a b c : String × EditorPosition)
    (ds : List (String × EditorPosition)) (z : String × EditorPosition)
    (hnd : ((a :: b :: c :: (ds ++ [z])).map Prod.fst).Nodup)
    (hlen : ds.length = 47) :
    (LRU.get (LRU.setAll [] (a :: b :: c :: ds)) a.1).1 = some a.2 ∧
    LRU.has (LRU.set (LRU.get (LRU.setAll [] (a :: b :: c :: ds)) a.1).2 z.1 z.2)
      b.1 = false ∧
    LRU.lookup (LRU.set (LRU.get (LRU.setAll [] (a :: b :: c :: ds)) a.1).2 z.1 z.2)
      a.1 = some a.2 := by
  obtain ⟨a1, a2⟩ := a
  obtain ⟨z1, z2⟩ := z
  simp only [List.map_cons, List.map_append, List.map_nil, List.nodup_cons,
    List.mem_cons, List.mem_append, List.mem_map, List.mem_singleton] at hnd
  obtain ⟨ha, hb, hc, hnd'⟩ := hnd
  have hzds : z1 ∉ ds.map Prod.fst ∧ (ds.map Prod.fst).Nodup := by
    have h1 := (List.nodup_append).1 (by simpa using hnd')
    exact ⟨fun hm => h1.2.2 hm (by simp), h1.1⟩
  have hnd0 : (((a1, a2) :: b :: c :: ds).map Prod.fst).Nodup := by
    simp only [List.map_cons, List.nodup_cons, List.mem_cons, List.mem_map]
    refine ⟨?_, ?_, ?_, hzds.2⟩
    · intro h
      rcases h with h | h | h
      · exact ha (Or.inl h)
      · exact ha (Or.inr (Or.inl h))
      · exact ha (Or.inr (Or.inr (Or.inl (by simpa using h))))
    · intro h
      rcases h with h | h
      · exact hb (Or.inl h)
      · exact hb (Or.inr (Or.inl (by simpa using h)))
    · intro h
      exact hc (Or.inl (by simpa using h))
  have hset0 : LRU.setAll [] ((a1, a2) :: b :: c :: ds) = (a1, a2) :: b :: c :: ds := by
    rw [LRU.setAll_fresh (by simpa using hnd0) (by simp)]
    rw [List.nil_append]
    exact takeLast_eq_self (by simp [hlen, LRU.capacity])
  rw [hset0]
  have hlook : LRU.lookup ((a1, a2) :: b :: c :: ds) a1 = some a2 := by
    unfold LRU.lookup
    rw [List.find?_cons_of_pos _ (by simp)]
    rfl
  have hdel : LRU.delete ((a1, a2) :: b :: c :: ds) a1 = b :: c :: ds := by
    unfold LRU.delete
    rw [List.filter_cons_of_neg (by simp)]
    rw [List.filter_eq_self]
    intro e he
    have hne : e.1 ≠ a1 := by
      intro hh
      rcases List.mem_cons.1 he with rfl | h'
      · exact ha (Or.inl hh.symm)
      · rcases List.mem_cons.1 h' with rfl | h''
        · exact ha (Or.inr (Or.inl hh.symm))
        · exact ha (Or.inr (Or.inr (Or.inl ⟨e, h'', hh⟩)))
    simpa using hne
  have hget : LRU.get ((a1, a2) :: b :: c :: ds) a1 =
      (some a2, (b :: c :: ds) ++ [(a1, a2)]) := by
    rw [LRU.get_eq_of_lookup hlook, hdel]
  rw [hget]
  have hfresh : LRU.has ((b :: c :: ds) ++ [(a1, a2)]) z1 = false := by
    rw [LRU.has_eq_false_iff]
    intro e he hh
    rcases List.mem_append.1 he with h | h
    · rcases List.mem_cons.1 h with rfl | h'
      · exact hb (Or.inr (Or.inr (Or.inl hh)))
      · rcases List.mem_cons.1 h' with rfl | h''
        · exact hc (Or.inr (Or.inl hh))
        · have hm := List.mem_map_of_mem Prod.fst h''
          rw [hh] at hm
          exact hzds.1 hm
    · rcases List.mem_singleton.1 h with rfl
      exact ha (Or.inr (Or.inr (Or.inr (Or.inl hh))))
  have hfinal : LRU.set ((b :: c :: ds) ++ [(a1, a2)]) z1 z2 =
      c :: (ds ++ [(a1, a2)] ++ [(z1, z2)]) := by
    rw [LRU.set_fresh hfresh (by simp [hlen, LRU.capacity])]
    unfold takeLast
    rw [show (((b :: c :: ds) ++ [(a1, a2)]) ++ [(z1, z2)]).length =
      LRU.capacity + 1 by simp [hlen, LRU.capacity]]
    rw [Nat.add_sub_cancel_left, List.drop_one]
    simp [List.append_assoc]
  rw [hfinal]
  refine ⟨rfl, ?_, ?_⟩
  · rw [LRU.has_eq_false_iff]
    intro e he hh
    rcases List.mem_cons.1 he with rfl | h
    · exact hb (Or.inl hh.symm)
    · rcases List.mem_append.1 h with h' | h'
      · rcases List.mem_append.1 h' with h'' | h''
        · have hm := List.mem_map_of_mem Prod.fst h''
          rw [hh] at hm
          exact hb (Or.inr (Or.inl (by simpa using hm)))
        · rcases List.mem_singleton.1 h'' with rfl
          exact ha (Or.inl hh)
      · rcases List.mem_singleton.1 h' with rfl
        exact hb (Or.inr (Or.inr (Or.inl hh.symm)))
  · rw [LRU.lookup_cons_ne (fun hh => ha (Or.inr (Or.inl hh.symm)))]
    refine LRU.lookup_append_left ?_
    refine LRU.lookup_append_last ?_
    intro e he hh
    have hm := List.mem_map_of_mem Prod.fst he
    rw [hh] at hm
    exact ha (Or.inr (Or.inr (Or.inl (by simpa using hm))))

/-- Witness filler entries for the recency-promotion claim: 47 distinct keys,
the decimal numerals 10 to 56. -/
def wds : List (String × EditorPosition) :=
  (List.range 47).map (fun i => (toString (i + 10), ⟨i, 0⟩))

theorem c7_recency_promotion_witness :
    (((("a", (⟨1, 1⟩ : EditorPosition)) :: ("b", ⟨2, 2⟩) :: ("c", ⟨3, 3⟩) ::
        (wds ++ [("z", ⟨9, 9⟩)])).map Prod.fst).Nodup ∧ wds.length = 47) ∧
    ((LRU.get (LRU.setAll []
        (("a", ⟨1, 1⟩) :: ("b", ⟨2, 2⟩) :: ("c", ⟨3, 3⟩) :: wds)) "a").1 = some ⟨1, 1⟩ ∧
      LRU.has (LRU.set (LRU.get (LRU.setAll []
        (("a", ⟨1, 1⟩) :: ("b", ⟨2, 2⟩) :: ("c", ⟨3, 3⟩) :: wds)) "a").2 "z" ⟨9, 9⟩)
        "b" = false ∧
      LRU.lookup (LRU.set (LRU.get (LRU.setAll []
        (("a", ⟨1, 1⟩) :: ("b", ⟨2, 2⟩) :: ("c", ⟨3, 3⟩) :: wds)) "a").2 "z" ⟨9, 9⟩)
        "a" = some ⟨1, 1⟩) :=
  ⟨⟨by decide, by decide⟩,
    c7_recency_promotion ("a", ⟨1, 1⟩) ("b", ⟨2, 2⟩) ("c", ⟨3, 3⟩) wds ("z", ⟨9, 9⟩)
      (by decide) (by decide)⟩

theorem cursorsDiffer_eq_false_iff :
    ∀ a b : List CursorInfo, cursorsDiffer a b = false ↔ a = b := by
  intro a
  induction a with
  | nil =>
    intro b
    cases b with
    | nil => simp [cursorsDiffer]
    | cons y bs => simp [cursorsDiffer]
  | cons x as ih =>
    intro b
    cases b with
    | nil => simp [cursorsDiffer]
    | cons y bs =>
      obtain ⟨xf, xl, xc⟩ := x
      obtain ⟨yf, yl, yc⟩ := y
      simp only [cursorsDiffer, Bool.or_eq_false_iff, bne_eq_false_iff_eq,
        List.cons.injEq, CursorInfo.mk.injEq, EditorPosition.mk.injEq, ih bs]
      tauto

theorem save_writes_iff (s : PluginState) :
    (save s).2 = true ↔ serialize s.lru ≠ s.settings := by
  unfold save
  by_cases hlen : s.settings.length = (serialize s.lru).length
  · simp only [hlen, if_pos]
    by_cases hdiff : cursorsDiffer s.settings (serialize s.lru) = true
    · simp only [hdiff, if_pos]
      constructor
      · intro _ heq
        rw [((cursorsDiffer_eq_false_iff s.settings (serialize s.lru)).2 heq.symm)] at hdiff
        exact Bool.false_ne_true hdiff
      · intro _; trivial
    · have heq := (cursorsDiffer_eq_false_iff s.settings (serialize s.lru)).1
        (Bool.not_eq_true _ ▸ Bool.eq_false_iff.2 hdiff)
      simp only [Bool.not_eq_true] at hdiff
      simp only [hdiff, Bool.false_eq_true, if_neg, if_false]
      constructor
      · intro h; exact h.elim
      · intro h; exact absurd heq.symm h
  · simp only [hlen, if_neg, if_false, if_true, ite_true]
    constructor
    · intro _ heq
      exact hlen (by rw [heq])
    · intro _; trivial

theorem save_preserves_lru (s : PluginState) : (save s).1.lru = s.lru := by
  unfold save
  by_cases h : (if s.settings.length = (serialize s.lru).length
      then cursorsDiffer s.settings (serialize s.lru) else true) = true
  · simp only [h, if_pos]
  · simp only [Bool.not_eq_true] at h
    simp only [h, Bool.false_eq_true, if_false]

theorem save_snapshot (s : PluginState) : (save s).1.settings = serialize (save s).1.lru ∨
    (save s).1 = s ∧ serialize s.lru = s.settings := by
  unfold save
  by_cases h : (if s.settings.length = (serialize s.lru).length
      then cursorsDiffer s.settings (serialize s.lru) else true) = true
  · simp only [h, if_pos]
    exact Or.inl trivial
  · simp only [Bool.not_eq_true] at h
    simp only [h, Bool.false_eq_true, if_false]
    refine Or.inr ⟨trivial, ?_⟩
    by_cases hlen : s.settings.length = (serialize s.lru).length
    · rw [if_pos hlen] at h
      exact ((cursorsDiffer_eq_false_iff _ _).1 h).symm
    · rw [if_neg hlen] at h
      exact absurd h (by simp)

/-- C6 (amended): the save operation writes to durable storage iff the
oldest-first serialization differs from the last-persisted snapshot, so two
consecutive saves with no intervening cache mutation perform at most one
durable write, and the second call never writes. -/
theorem c6_idempotent_save (s : PluginState) :
    ((save s).2 = true ↔ serialize s.lru ≠ s.settings) ∧
    (save (save s).1).2 = false := by
  refine ⟨save_writes_iff s, ?_⟩
  have hiff := save_writes_iff (save s).1
  rw [Bool.eq_false_iff]
  intro h2
  rcases save_snapshot s with h | ⟨hid, heq⟩
  · exact (hiff.1 h2) (by rw [save_preserves_lru] at h; · rw [h]; rw [save_preserves_lru])
  · rw [hid] at h2
    exact (save_writes_iff s).1 h2 heq

/-- The initial plugin state: empty snapshot, empty cache, no debouncer. -/
def emptyState : PluginState :=
  { settings := [], lru := [], debounceSaveFn := DebSt.noFn, layoutReady := false,
    activePath := "", initialCursorHasBeenSet := false }

/-- C6 counterexample: from a state whose snapshot already equals the cache
serialization (the initial empty state), calling save twice performs zero
durable writes, not exactly one. -/
theorem c6_idempotent_save_cex :
    (save emptyState).2 = false ∧ (save (save emptyState).1).2 = false := by decide

/-- One externally driven debouncer event: a saveSettings call (req) or the
passage of one time unit (tick). -/
inductive Ev where
  | req
  | tick

/-- One step of the debouncer clock for a given saveSettings variant: on req
the variant runs; on tick an armed timer counts down, and at zero the
debounced callback fires (clearing debounceSaveFn and then running save, as
the source callback does).  The Bool records whether the scheduled write
fired. -/
def stepEv (reqFn : PluginState → PluginState) (s : PluginState) :
    Ev → PluginState × Bool
  | Ev.req => (reqFn s, false)
  | Ev.tick =>
    match s.debounceSaveFn with
    | DebSt.fnArmed 0 => ((save { s with debounceSaveFn := DebSt.noFn }).1, true)
    | DebSt.fnArmed (n + 1) => ({ s with debounceSaveFn := DebSt.fnArmed n }, false)
    | _ => (s, false)

/-- Run a sequence of debouncer events, counting the scheduled writes that
fired. -/
def runEvents (reqFn : PluginState → PluginState) :
    PluginState → List Ev → PluginState × Nat
  | s, [] => (s, 0)
  | s, e :: es =>
    let r := stepEv reqFn s e
    let r2 := runEvents reqFn r.1 es
    (r2.1, (if r.2 then 1 else 0) + r2.2)

/-- The state exhibiting the lost saveSettings call of src/main.ts: no
debouncer yet, and a cache differing from the persisted snapshot. -/
def c5State : PluginState :=
  { settings := [], lru := [("a.md", ⟨5, 10⟩)], debounceSaveFn := DebSt.noFn,
    layoutReady := true, activePath := "a.md", initialCursorHasBeenSet := true }

/-- C5: evaluation at the failing input, a burst of N = 1 calls.  One
saveSettings call from the idle state followed by 20 quiescent time units:
under src/main.ts the debouncer is created but never invoked, so no write is
scheduled, none ever fires and the snapshot stays stale (the call is lost);
under the src/unnamed/part_000 variant the same burst fires exactly one write
that persists the cache state. -/
theorem c5_debounce_single_call_lost_mainTs :
    (runEvents saveSettingsMainTs c5State (Ev.req :: List.replicate 20 Ev.tick)).2 = 0 ∧
    (runEvents saveSettingsMainTs c5State
      (Ev.req :: List.replicate 20 Ev.tick)).1.settings = [] ∧
    (runEvents saveSettings c5State (Ev.req :: List.replicate 20 Ev.tick)).2 = 1 ∧
    (runEvents saveSettings c5State (Ev.req :: List.replicate 20 Ev.tick)).1.settings =
      serialize c5State.lru := by decide

theorem save_settings_eq_serialize (s : PluginState) :
    (save s).1.settings = serialize (save s).1.lru := by
  rcases save_snapshot s with h | ⟨hid, heq⟩
  · exact h
  · rw [hid, heq]

theorem saveSettings_eq (s : PluginState) :
    saveSettings s = { s with debounceSaveFn := DebSt.fnArmed quiescence } := by
  cases h : s.debounceSaveFn <;> simp [saveSettings, h]

theorem runEvents_append (f : PluginState → PluginState) (s : PluginState)
    (t u : List Ev) :
    runEvents f s (t ++ u) =
      ((runEvents f (runEvents f s t).1 u).1,
        (runEvents f s t).2 + (runEvents f (runEvents f s t).1 u).2) := by
  induction t generalizing s with
  | nil => simp [runEvents]
  | cons e t ih =>
    simp only [List.cons_append, runEvents, List.append_eq, ih]
    rw [Nat.add_assoc]

theorem runEvents_ticks (f : PluginState → PluginState) (s : PluginState)
    (q n : Nat) (hq : s.debounceSaveFn = DebSt.fnArmed q) (hn : n ≤ q) :
    runEvents f s (List.replicate n Ev.tick) =
      ({ s with debounceSaveFn := DebSt.fnArmed (q - n) }, 0) := by
  induction n generalizing s q with
  | zero =>
    simp only [List.replicate, runEvents, Nat.sub_zero, ← hq]
  | succ n ih =>
    cases q with
    | zero => omega
    | succ m =>
      rw [List.replicate_succ]
      simp only [runEvents, stepEv, hq]
      rw [ih { s with debounceSaveFn := DebSt.fnArmed m } m rfl (by omega)]
      simp only [Bool.false_eq_true, if_false, Nat.zero_add]
      have : m + 1 - (n + 1) = m - n := by omega
      rw [this]

theorem runEvents_fire (f : PluginState → PluginState) (s : PluginState)
    (q : Nat) (hq : s.debounceSaveFn = DebSt.fnArmed q) :
    runEvents f s (List.replicate (q + 1) Ev.tick) =
      ((save { s with debounceSaveFn := DebSt.noFn }).1, 1) := by
  rw [List.replicate_succ', runEvents_append,
    runEvents_ticks f s q q hq (Nat.le_refl q)]
  simp [runEvents, stepEv, Nat.sub_self]

theorem runEvents_req (x : PluginState) :
    runEvents saveSettings x [Ev.req] = (saveSettings x, 0) := by
  simp [runEvents, stepEv]

/-- A requestSave burst falling within one quiescence window: the first call,
then for each n in ns a gap of n time units (at most the window, so the
pending timer never fires inside the burst) followed by another call, then
full quiescence. -/
def burst (ns : List Nat) : List Ev :=
  Ev.req :: ((ns.map (fun n => List.replicate n Ev.tick ++ [Ev.req])).flatten
    ++ List.replicate (quiescence + 1) Ev.tick)

theorem runEvents_burst_aux (ns : List Nat) (s : PluginState)
    (h : ∀ n ∈ ns, n ≤ quiescence)
    (hq : s.debounceSaveFn = DebSt.fnArmed quiescence) :
    runEvents saveSettings s
      ((ns.map (fun n => List.replicate n Ev.tick ++ [Ev.req])).flatten
        ++ List.replicate (quiescence + 1) Ev.tick) =
      ((save { s with debounceSaveFn := DebSt.noFn }).1, 1) := by
  induction ns generalizing s with
  | nil =>
    simp only [List.map_nil, List.flatten_nil, List.nil_append]
    exact runEvents_fire _ s quiescence hq
  | cons n ns ih =>
    simp only [List.map_cons, List.flatten_cons, List.append_assoc]
    rw [runEvents_append, runEvents_ticks saveSettings s quiescence n hq
      (h n (List.mem_cons_self n ns))]
    rw [runEvents_append, runEvents_req, saveSettings_eq]
    rw [ih { s with debounceSaveFn := DebSt.fnArmed quiescence }
      (fun m hm => h m (List.mem_cons_of_mem n hm)) rfl]
    simp

/-- Coalescing of the part_000 saveSettings: any burst of N at least 1 calls
inside one quiescence window, followed by quiescence, fires the scheduled
write exactly once, and the persisted snapshot afterwards reflects the cache
state at fire time. -/
theorem saveSettings_burst_coalesced (s : PluginState) (ns : List Nat)
    (h : ∀ n ∈ ns, n ≤ quiescence) :
    (runEvents saveSettings s (burst ns)).2 = 1 ∧
    (runEvents saveSettings s (burst ns)).1.settings = serialize s.lru := by
  unfold burst
  have hstep : runEvents saveSettings s
      (Ev.req :: ((ns.map (fun n => List.replicate n Ev.tick ++ [Ev.req])).flatten
        ++ List.replicate (quiescence + 1) Ev.tick)) =
      ((save { s with debounceSaveFn := DebSt.noFn }).1, 1) := by
    simp only [runEvents, stepEv]
    rw [saveSettings_eq,
      runEvents_burst_aux ns { s with debounceSaveFn := DebSt.fnArmed quiescence } h rfl]
    simp
  rw [hstep]
  refine ⟨rfl, ?_⟩
  rw [save_settings_eq_serialize, save_preserves_lru]

/-- The state used to exhibit the inverted comparison of src/main.ts and the
missing non-origin override: layout ready, a.md active and settled, the cache
holding position (5, 10) for a.md, snapshot empty. -/
def cmpState : PluginState :=
  { settings := [], lru := [("a.md", ⟨5, 10⟩)], debounceSaveFn := DebSt.noFn,
    layoutReady := true, activePath := "a.md", initialCursorHasBeenSet := true }

/-- C3: evaluation at the failing input.  With the cache holding (5, 10) for
the active, settled document and layout ready: a move notification whose
caret (3, 4) differs from the cached entry leaves src/main.ts's
updateCursorPosition with the cache unchanged and no save requested (the
claim requires the caret to be stored and a save requested), while a
notification whose caret (5, 10) equals the cached entry makes it store the
caret and request a save (the claim requires no save).  The part_000 variant
behaves as the claim states on both inputs. -/
theorem c3_update_on_difference_mainTs_inverted :
    (updateCursorPositionMainTs cmpState (some { path := "a.md", cursor := ⟨3, 4⟩ }) =
      (cmpState, noEff)) ∧
    ((updateCursorPositionMainTs cmpState
        (some { path := "a.md", cursor := ⟨5, 10⟩ })).2.reqSave = true) ∧
    (updateCursorPosition cmpState (some { path := "a.md", cursor := ⟨3, 4⟩ }) =
      ({ cmpState with
          lru := [("a.md", ⟨3, 4⟩)],
          debounceSaveFn := DebSt.fnArmed quiescence },
        { reqSave := true, setCursorTo := none }) ∧
      updateCursorPosition cmpState (some { path := "a.md", cursor := ⟨5, 10⟩ }) =
        (cmpState, noEff)) := by decide

/-- C4: evaluation at the failing input.  Opening a.md with stored position
(5, 10) while the actual caret is (3, 4): src/main.ts's onOpen leaves the
cache at (5, 10), requests no save and issues no editor move, where the claim
requires the cache to be overwritten with (3, 4) and a save requested.  The
part_000 variant stores (3, 4) and requests a save, as the claim states. -/
theorem c4_non_origin_override_missing_mainTs :
    (onOpenMainTs cmpState (some { path := "a.md", cursor := ⟨3, 4⟩ }) =
      (cmpState, noEff)) ∧
    (onOpen cmpState (some { path := "a.md", cursor := ⟨3, 4⟩ }) =
      ({ cmpState with
          lru := [("a.md", ⟨3, 4⟩)],
          debounceSaveFn := DebSt.fnArmed quiescence },
        { reqSave := true, setCursorTo := none })) := by decide

/-- C9: a move notification arriving before the layout-ready signal, or whose
document key differs from the active document's key, is dropped by both
updateCursorPosition variants: the state is returned exactly unchanged (cache
contents, recency order and pending-save state included), no save is
requested and no editor move is issued. -/
theorem c9_stale_or_early_notifications_dropped (s : PluginState) (view : Option View)
    (h : s.layoutReady = false ∨ ∃ v, view = some v ∧ v.path ≠ s.activePath) :
    updateCursorPosition s view = (s, noEff) ∧
    updateCursorPositionMainTs s view = (s, noEff) := by
  rcases h with h | ⟨v, rfl, hv⟩
  · unfold updateCursorPosition updateCursorPositionMainTs
    rw [h]
    simp
  · unfold updateCursorPosition updateCursorPositionMainTs
    by_cases hl : s.layoutReady
    · simp [hl, hv]
    · simp [Bool.eq_false_iff.2 hl]

theorem c9_stale_or_early_notifications_dropped_witness :
    (cmpState.layoutReady = false ∨
      ∃ v, (some { path := "b.md", cursor := ⟨1, 2⟩ } : Option View) = some v ∧
        v.path ≠ cmpState.activePath) ∧
    (updateCursorPosition cmpState (some { path := "b.md", cursor := ⟨1, 2⟩ }) =
      (cmpState, noEff) ∧
    updateCursorPositionMainTs cmpState (some { path := "b.md", cursor := ⟨1, 2⟩ }) =
      (cmpState, noEff)) :=
  ⟨Or.inr ⟨{ path := "b.md", cursor := ⟨1, 2⟩ }, rfl, by decide⟩,
    c9_stale_or_early_notifications_dropped cmpState
      (some { path := "b.md", cursor := ⟨1, 2⟩ })
      (Or.inr ⟨{ path := "b.md", cursor := ⟨1, 2⟩ }, rfl, by decide⟩)⟩

namespace LRU

theorem delete_promote (c : LRUCache) (k : String) (p : EditorPosition) :
    delete (delete c k ++ [(k, p)]) k = delete c k := by
  unfold delete
  rw [List.filter_append]
  have h1 : (c.filter (fun x => x.1 != k)).filter (fun x => x.1 != k) =
      c.filter (fun x => x.1 != k) := by
    rw [List.filter_filter]
    simp
  have h2 : List.filter (fun x => x.1 != k) [(k, p)] = [] := by simp
  rw [h1, h2, List.append_nil]

theorem get_promoted (c : LRUCache) (k : String) (p : EditorPosition) :
    get (delete c k ++ [(k, p)]) k = (some p, delete c k ++ [(k, p)]) := by
  have hl : lookup (delete c k ++ [(k, p)]) k = some p :=
    lookup_append_last mem_delete_ne
  rw [get_eq_of_lookup hl, delete_promote]

theorem lookup_isSome_of_has {c : LRUCache} {k : String}
    (h : has c k = true) : (lookup c k).isSome := by
  unfold lookup
  cases hf : c.find? (fun e => e.1 == k) with
  | some e => simp
  | none =>
    exfalso
    rw [List.find?_eq_none] at hf
    unfold has at h
    rw [List.any_eq_true] at h
    obtain ⟨e, he, hpe⟩ := h
    exact hf e he hpe

end LRU

theorem saveSettings_lru (s : PluginState) : (saveSettings s).lru = s.lru := by
  rw [saveSettings_eq]

/-- C8 counterexample: renaming a cached key to itself.  With a.md cached,
the rename event (oldKey, newKey) = ("a.md", "a.md") reads, deletes and
re-inserts the entry, so has(oldKey) is still true afterwards, where the
claim requires has(oldKey) = false while get(newKey) returns the value. -/
theorem c8_rename_same_key_cex :
    LRU.has (renameFile cmpState "a.md" "a.md").1.lru "a.md" = true ∧
    (renameFile cmpState "a.md" "a.md").1.lru = [("a.md", ⟨5, 10⟩)] := by decide

/-- C8 (amended): for every rename event (oldKey, newKey) with oldKey and
newKey different: if the cache holds value v for oldKey then afterwards
has(oldKey) is false, newKey maps to v and a save is requested; if the cache
has no entry for oldKey the rename is a no-op and no save is requested. -/
theorem c8_rename_preserves_position (s : PluginState) (newKey oldKey : String)
    (hne : oldKey ≠ newKey) :
    (∀ p, LRU.lookup s.lru oldKey = some p →
      LRU.has (renameFile s newKey oldKey).1.lru oldKey = false ∧
      LRU.lookup (renameFile s newKey oldKey).1.lru newKey = some p ∧
      (renameFile s newKey oldKey).2.reqSave = true) ∧
    (LRU.lookup s.lru oldKey = none → renameFile s newKey oldKey = (s, noEff)) := by
  constructor
  · intro p hp
    have hhas : LRU.has s.lru oldKey = true := LRU.has_of_lookup hp
    unfold renameFile
    rw [hhas]
    simp only [if_true, LRU.get_eq_of_lookup hp, LRU.delete_promote, saveSettings_lru]
    refine ⟨?_, ?_, trivial⟩
    · refine LRU.has_set_eq_false ?_ (Ne.symm hne)
      rw [LRU.has_eq_false_iff]
      exact LRU.mem_delete_ne
    · exact LRU.lookup_set_self _ _ _
  · intro hp
    have hhas : LRU.has s.lru oldKey = false := by
      cases hh : LRU.has s.lru oldKey with
      | false => rfl
      | true =>
        have := LRU.lookup_isSome_of_has hh
        rw [hp] at this
        simp at this
    unfold renameFile
    rw [hhas]
    simp

/-- The state of the rename witness: a.md cached at (2, 2). -/
def rnState : PluginState :=
  { settings := [], lru := [("a.md", ⟨2, 2⟩)], debounceSaveFn := DebSt.noFn,
    layoutReady := true, activePath := "a.md", initialCursorHasBeenSet := true }

theorem c8_rename_preserves_position_witness :
    (("a.md" : String) ≠ "b.md" ∧ LRU.lookup rnState.lru "a.md" = some ⟨2, 2⟩) ∧
    (LRU.has (renameFile rnState "b.md" "a.md").1.lru "a.md" = false ∧
      LRU.lookup (renameFile rnState "b.md" "a.md").1.lru "b.md" = some ⟨2, 2⟩ ∧
      (renameFile rnState "b.md" "a.md").2.reqSave = true) :=
  ⟨⟨by decide, by decide⟩,
    (c8_rename_preserves_position rnState "b.md" "a.md" (by decide)).1 ⟨2, 2⟩ (by decide)⟩

theorem onOpen_origin {s : PluginState} {key : String} {p : EditorPosition}
    (hk : key ≠ "") (hstored : LRU.lookup s.lru key = some p) :
    onOpen s (some { path := key, cursor := ⟨0, 0⟩ }) =
      ({ s with lru := LRU.delete s.lru key ++ [(key, p)] },
        { reqSave := false, setCursorTo := some p }) := by
  unfold onOpen
  have hbne : (key != "") = true := by simpa using hk
  simp only [hbne, LRU.has_of_lookup hstored, Bool.and_self, if_true,
    LRU.get_eq_of_lookup hstored]
  simp [LRU.delete]

theorem LRU.lookup_eq_fst_get (c : LRUCache) (k : String) :
    LRU.lookup c k = (LRU.get c k).1 := by
  unfold LRU.lookup LRU.get
  cases hf : c.find? (fun e => e.1 == k) <;> simp

theorem updateCursorPosition_equal_noop (s1 : PluginState) (key : String)
    (p : EditorPosition) (hpath : s1.activePath = key)
    (hflag : s1.initialCursorHasBeenSet = true)
    (hget : LRU.get s1.lru key = (some p, s1.lru)) :
    updateCursorPosition s1 (some { path := key, cursor := p }) = (s1, noEff) := by
  obtain ⟨se, sl, sd, sy, sa, si⟩ := s1
  simp only at hpath hflag hget
  subst hflag
  have hlk : LRU.lookup sl key = some p := by
    rw [LRU.lookup_eq_fst_get, hget]
  have hhas : LRU.has sl key = true := LRU.has_of_lookup hlk
  unfold updateCursorPosition
  rw [hpath]
  by_cases hl : sy = true
  · subst hl
    simp only [Bool.not_true, Bool.false_eq_true, if_false, bne_self_eq_false,
      hhas, if_true, hget, Bool.or_self]
  · have hl2 : sy = false := by
      cases sy
      · rfl
      · exact absurd rfl hl
    subst hl2
    simp

/-- Apply a programmatic editor move to the external view: the caret becomes
the setCursor target when one was issued. -/
def applyCursorEff (view : Option View) (e : Eff) : Option View :=
  match view, e.setCursorTo with
  | some v, some p => some { v with cursor := p }
  | v, _ => v

/-- The plugin together with the external editor view. -/
structure World where
  plugin : PluginState
  view : Option View

/-- The file-open event acting on the world: the registered handler runs and
a programmatic move it issues lands in the editor caret, which is what makes
the editor deliver the echo notification afterwards. -/
def worldFileOpen (w : World) (fp : Option String) : World × Eff :=
  let r := fileOpenEvent w.plugin fp w.view
  ({ plugin := r.1, view := applyCursorEff w.view r.2 }, r.2)

/-- A move notification acting on the world: updateCursorPosition runs
against the current view. -/
def worldMove (w : World) : World × Eff :=
  let r := updateCursorPosition w.plugin w.view
  ({ plugin := r.1, view := w.view }, r.2)

/-- C2: opening a document with a stored position while its caret is at the
origin triggers the programmatic restoration move; the move notification the
restoration produces, processed for the still-active document, leaves the
session Settled, does not change the cache at all (in particular the cached
position for the key is unchanged), and issues no persistence request. -/
theorem c2_restoration_echo_suppressed (w : World) (key : String) (p : EditorPosition)
    (hk : key ≠ "") (hview : w.view = some { path := key, cursor := ⟨0, 0⟩ })
    (hstored : LRU.lookup w.plugin.lru key = some p) :
    LRU.lookup (worldMove (worldFileOpen w (some key)).1).1.plugin.lru key = some p ∧
    (worldMove (worldFileOpen w (some key)).1).2.reqSave = false ∧
    (worldMove (worldFileOpen w (some key)).1).1.plugin.lru =
      (worldFileOpen w (some key)).1.plugin.lru ∧
    (worldMove (worldFileOpen w (some key)).1).1.plugin.debounceSaveFn =
      (worldFileOpen w (some key)).1.plugin.debounceSaveFn ∧
    (worldMove (worldFileOpen w (some key)).1).1.plugin.initialCursorHasBeenSet
      = true := by
  obtain ⟨sp, sv⟩ := w
  obtain ⟨se, sl, sd, sy, sa, si⟩ := sp
  simp only at hview hstored
  subst hview
  have hopen : worldFileOpen ⟨⟨se, sl, sd, sy, sa, si⟩, some ⟨key, ⟨0, 0⟩⟩⟩ (some key) =
      (⟨⟨se, LRU.delete sl key ++ [(key, p)], sd, sy, key, true⟩, some ⟨key, p⟩⟩,
        ⟨false, some p⟩) := by
    unfold worldFileOpen fileOpenEvent
    simp only [Option.getD_some]
    rw [@onOpen_origin ⟨se, sl, sd, sy, key, false⟩ key p hk hstored]
    simp [applyCursorEff]
  rw [hopen]
  have hmove : worldMove
      ⟨⟨se, LRU.delete sl key ++ [(key, p)], sd, sy, key, true⟩, some ⟨key, p⟩⟩ =
      (⟨⟨se, LRU.delete sl key ++ [(key, p)], sd, sy, key, true⟩, some ⟨key, p⟩⟩,
        noEff) := by
    unfold worldMove
    rw [updateCursorPosition_equal_noop
      ⟨se, LRU.delete sl key ++ [(key, p)], sd, sy, key, true⟩ key p rfl rfl
      (LRU.get_promoted sl key p)]
  rw [hmove]
  exact ⟨LRU.lookup_append_last LRU.mem_delete_ne, rfl, rfl, rfl, rfl⟩

/-- The initial world of the echo-suppression witness: a.md cached at (5, 10)
and the editor showing a.md with the caret at the origin. -/
def echoWorld : World :=
  { plugin :=
      { settings := [], lru := [("a.md", ⟨5, 10⟩)], debounceSaveFn := DebSt.noFn,
        layoutReady := true, activePath := "", initialCursorHasBeenSet := false },
    view := some { path := "a.md", cursor := ⟨0, 0⟩ } }

theorem c2_restoration_echo_suppressed_witness :
    (("a.md" : String) ≠ "" ∧
      echoWorld.view = some { path := "a.md", cursor := ⟨0, 0⟩ } ∧
      LRU.lookup echoWorld.plugin.lru "a.md" = some ⟨5, 10⟩) ∧
    (LRU.lookup
        (worldMove (worldFileOpen echoWorld (some "a.md")).1).1.plugin.lru "a.md" =
        some ⟨5, 10⟩ ∧
      (worldMove (worldFileOpen echoWorld (some "a.md")).1).2.reqSave = false ∧
      (worldMove (worldFileOpen echoWorld (some "a.md")).1).1.plugin.lru =
        (worldFileOpen echoWorld (some "a.md")).1.plugin.lru ∧
      (worldMove (worldFileOpen echoWorld (some "a.md")).1).1.plugin.debounceSaveFn =
        (worldFileOpen echoWorld (some "a.md")).1.plugin.debounceSaveFn ∧
      (worldMove
        (worldFileOpen echoWorld (some "a.md")).1).1.plugin.initialCursorHasBeenSet =
        true) :=
  ⟨⟨by decide, rfl, by decide⟩,
    c2_restoration_echo_suppressed echoWorld "a.md" ⟨5, 10⟩ (by decide) rfl (by decide)⟩

/-- One open of an already-cached document whose caret sits at the origin:
the registered file-open handler runs with the view showing that document. -/
def openAtOrigin (s : PluginState) (k : String) : PluginState × Eff :=
  fileOpenEvent s (some k) (some { path := k, cursor := ⟨0, 0⟩ })

/-- A sequence of such opens, recording whether any handler requested a
save. -/
def opensRun : PluginState → List String → PluginState × Bool
  | s, [] => (s, false)
  | s, k :: ks =>
    let r := openAtOrigin s k
    let r2 := opensRun r.1 ks
    (r2.1, r.2.reqSave || r2.2)

theorem openAtOrigin_spec (s : PluginState) (k : String) (p : EditorPosition)
    (hk : k ≠ "") (hstored : LRU.lookup s.lru k = some p) :
    openAtOrigin s k =
      ({ s with
          activePath := k,
          initialCursorHasBeenSet := true,
          lru := LRU.delete s.lru k ++ [(k, p)] },
        { reqSave := false, setCursorTo := some p }) := by
  obtain ⟨se, sl, sd, sy, sa, si⟩ := s
  simp only at hstored
  unfold openAtOrigin fileOpenEvent
  simp only [Option.getD_some]
  rw [@onOpen_origin ⟨se, sl, sd, sy, k, false⟩ k p hk hstored]

/-- C10: during document-open handling of an already-cached document whose
caret is at the origin, the stored-position read promotes the opened key to
most-recently-used — changing the oldest-first serialization order whenever
the key was not already most recent — while the key-to-position bindings, the
persisted snapshot and the debouncer are untouched and no save is requested;
hence any sequence of such opens mutates only the in-memory recency order and
never schedules a save, so the persisted order lags the in-memory order. -/
theorem c10_open_promotes_without_save :
    (∀ (s : PluginState) (k : String) (p : EditorPosition), k ≠ "" →
      LRU.lookup s.lru k = some p →
      (openAtOrigin s k).2.reqSave = false ∧
      (openAtOrigin s k).1.debounceSaveFn = s.debounceSaveFn ∧
      (openAtOrigin s k).1.settings = s.settings ∧
      (∀ q, LRU.lookup (openAtOrigin s k).1.lru q = LRU.lookup s.lru q) ∧
      (openAtOrigin s k).1.lru.getLast? = some (k, p) ∧
      (s.lru.getLast?.map Prod.fst ≠ some k → (openAtOrigin s k).1.lru ≠ s.lru)) ∧
    (∀ (s : PluginState) (ks : List String),
      (∀ k ∈ ks, k ≠ "" ∧ (LRU.lookup s.lru k).isSome) →
      (opensRun s ks).2 = false ∧
      (opensRun s ks).1.settings = s.settings ∧
      (opensRun s ks).1.debounceSaveFn = s.debounceSaveFn) := by
  constructor
  · intro s k p hk hstored
    rw [openAtOrigin_spec s k p hk hstored]
    refine ⟨rfl, rfl, rfl, ?_, ?_, ?_⟩
    · intro q
      exact LRU.lookup_promote hstored q
    · exact List.getLast?_concat _
    · intro hne heq
      apply hne
      simp only at heq
      rw [← heq, List.getLast?_concat]
      rfl
  · intro s ks h
    induction ks generalizing s with
    | nil => exact ⟨rfl, rfl, rfl⟩
    | cons k ks ih =>
      obtain ⟨hk, hsome⟩ := h k (List.mem_cons_self k ks)
      obtain ⟨p, hp⟩ := Option.isSome_iff_exists.1 hsome
      have hspec := openAtOrigin_spec s k p hk hp
      have hrest : ∀ m ∈ ks, m ≠ "" ∧
          (LRU.lookup (openAtOrigin s k).1.lru m).isSome := by
        intro m hm
        obtain ⟨hm1, hm2⟩ := h m (List.mem_cons_of_mem k hm)
        refine ⟨hm1, ?_⟩
        rw [hspec]
        show (LRU.lookup (LRU.delete s.lru k ++ [(k, p)]) m).isSome
        rw [LRU.lookup_promote hp m]
        exact hm2
      obtain ⟨ih1, ih2, ih3⟩ := ih (openAtOrigin s k).1 hrest
      simp only [opensRun]
      refine ⟨?_, ?_, ?_⟩
      · rw [ih1, hspec]
        simp
      · rw [ih2, hspec]
      · rw [ih3, hspec]

/-- The state of the promotion-without-save witness: two cached documents,
a.md older than b.md. -/
def c10State : PluginState :=
  { settings := [], lru := [("a.md", ⟨1, 1⟩), ("b.md", ⟨2, 2⟩)],
    debounceSaveFn := DebSt.noFn, layoutReady := true, activePath := "",
    initialCursorHasBeenSet := false }

theorem c10_open_promotes_without_save_witness :
    (("a.md" : String) ≠ "" ∧ LRU.lookup c10State.lru "a.md" = some ⟨1, 1⟩ ∧
      c10State.lru.getLast?.map Prod.fst ≠ some "a.md" ∧
      (∀ k ∈ ["a.md", "b.md"], k ≠ "" ∧ (LRU.lookup c10State.lru k).isSome)) ∧
    ((openAtOrigin c10State "a.md").2.reqSave = false ∧
      (openAtOrigin c10State "a.md").1.lru.getLast? = some ("a.md", ⟨1, 1⟩) ∧
      (openAtOrigin c10State "a.md").1.lru ≠ c10State.lru) ∧
    ((opensRun c10State ["a.md", "b.md"]).2 = false ∧
      (opensRun c10State ["a.md", "b.md"]).1.settings = c10State.settings ∧
      (opensRun c10State ["a.md", "b.md"]).1.debounceSaveFn =
        c10State.debounceSaveFn) :=
  ⟨⟨by decide, by decide, by decide, by decide⟩,
    ⟨(c10_open_promotes_without_save.1 c10State "a.md" ⟨1, 1⟩ (by decide)
        (by decide)).1,
      (c10_open_promotes_without_save.1 c10State "a.md" ⟨1, 1⟩ (by decide)
        (by decide)).2.2.2.2.1,
      (c10_open_promotes_without_save.1 c10State "a.md" ⟨1, 1⟩ (by decide)
        (by decide)).2.2.2.2.2 (by decide)⟩,
    c10_open_promotes_without_save.2 c10State ["a.md", "b.md"] (by decide)⟩
